import Mathlib

/-!
Verification of `scripts/extract-messages.py`: a depth-first traversal of a
knowledge-model tree producing translation-message records, followed by a
deduplicate-group-sort catalog builder (`build_pot`).

Modelling choices:
* Python strings become `String`; UUID values become their canonical string
  form (`String`), since the script only ever formats them into location
  strings and uses them as dictionary keys.
* The mutable `self.messages` list is threaded explicitly: every extraction
  function takes the accumulated list and returns the extended list, exactly
  mirroring the sequence of `self.messages.append` calls.
* Python exceptions become `Except ExtractError`; an unresolved registry
  lookup raises, and the error propagates (nothing in the script catches).
* Recursion through follow-up / item-template questions is unbounded in the
  source; the embedding adds a fuel parameter, with `ExtractError.outOfFuel`
  raised only when fuel is exhausted.  Any acyclic input succeeds for large
  enough fuel.
* Python's `sorted` (a stable sort) is modelled by `List.insertionSort`
  (also stable); both sort keys here are used on duplicate-free data, so the
  sorted output is uniquely determined and the choice of stable sort is
  immaterial.
* The final serialization through `babel`'s `Catalog`/`write_po` is external
  to the repository; the catalog is modelled up to its ordered list of
  (msgid, sorted locations) entries handed to `catalog.add`.
-/

deriving instance DecidableEq for Except

namespace ExtractMessages

/-- `ExtractedMessage` dataclass from the script: a translatable string plus
its provenance (`entity_type`, `entity_uuid`, `entity_attribute`). -/
structure ExtractedMessage where
  msgid : String
  entity_type : String
  entity_uuid : String
  entity_attribute : String
  deriving Repr, DecidableEq

/-- The `path` property: `f'{entity_type}:{entity_uuid}:{entity_attribute}'`. -/
def ExtractedMessage.path (m : ExtractedMessage) : String :=
  m.entity_type ++ ":" ++ m.entity_uuid ++ ":" ++ m.entity_attribute

/-- The `line` property: always `0`. -/
def ExtractedMessage.line (_ : ExtractedMessage) : Nat := 0

/-- `km_flat.Chapter`: title, text, ordered question identifiers. -/
structure Chapter where
  uuid : String
  title : String
  text : String
  question_uuids : List String
  deriving Repr, DecidableEq

/-- `km_flat.Question` and its variants.  The script tests
`isinstance(question, ListQuestion)`, `isinstance(question, MultiChoiceQuestion)`
and `isinstance(question, OptionsQuestion)` with three independent `if`
statements, so a node may in principle match several branches; each variant's
child list is therefore an `Option`, present exactly when the node is an
instance of that variant. -/
structure Question where
  uuid : String
  title : String
  text : String
  item_template_question_uuids : Option (List String)
  choice_uuids : Option (List String)
  answer_uuids : Option (List String)
  reference_uuids : List String
  deriving Repr, DecidableEq

/-- `km_flat.Answer`: label, advice, follow-up question identifiers. -/
structure Answer where
  uuid : String
  label : String
  advice : String
  follow_up_uuids : List String
  deriving Repr, DecidableEq

/-- `km_flat.Choice`: a label only. -/
structure Choice where
  uuid : String
  label : String
  deriving Repr, DecidableEq

/-- `km_flat.Reference`: `URLReference` carries a label, `CrossReference` a
description; any other reference kind produces no message. -/
inductive Reference where
  | url (uuid : String) (label : String)
  | cross (uuid : String) (description : String)
  | other (uuid : String)
  deriving Repr, DecidableEq

/-- `km_flat.Phase`: title, description. -/
structure Phase where
  uuid : String
  title : String
  description : String
  deriving Repr, DecidableEq

/-- `km_flat.Tag`: name, description. -/
structure Tag where
  uuid : String
  name : String
  description : String
  deriving Repr, DecidableEq

/-- `km_flat.Metric`: title, description. -/
structure Metric where
  uuid : String
  title : String
  description : String
  deriving Repr, DecidableEq

/-- `km_flat.ResourceCollection`: title plus ordered resource-page ids. -/
structure ResourceCollection where
  uuid : String
  title : String
  resource_page_uuids : List String
  deriving Repr, DecidableEq

/-- `km_flat.ResourcePage`: title, content. -/
structure ResourcePage where
  uuid : String
  title : String
  content : String
  deriving Repr, DecidableEq

/-- The entity registry `km.entities`: one identifier-indexed map per node
kind, modelled as association lists. -/
structure Entities where
  chapters : List (String × Chapter)
  questions : List (String × Question)
  choices : List (String × Choice)
  answers : List (String × Answer)
  references : List (String × Reference)
  tags : List (String × Tag)
  metrics : List (String × Metric)
  phases : List (String × Phase)
  resource_collections : List (String × ResourceCollection)
  resource_pages : List (String × ResourcePage)
  deriving Repr, DecidableEq

/-- `km_flat.KnowledgeModel`: top-level chapter order plus the registry. -/
structure KnowledgeModel where
  chapter_uuids : List String
  entities : Entities
  deriving Repr, DecidableEq

/-- Failure modes of the extraction: an unresolved registry lookup (naming
the expected entity type and the missing identifier), or fuel exhaustion
(an artifact of the embedding, impossible on acyclic input with enough
fuel). -/
inductive ExtractError where
  | unresolved (entityType : String) (entityId : String)
  | outOfFuel
  deriving Repr, DecidableEq

/-- Association-list lookup, modelling `dict.__getitem__` key search. -/
def assocGet : List (String × α) → String → Option α
  | [], _ => none
  | (k, v) :: rest, entityId => if k = entityId then some v else assocGet rest entityId

/-- Modelled from the spec: the registry containers and their `get` method
live in the external `dsw.models.knowledge_model.flat` package, which is not
part of this repository.  Per the spec, an identifier absent from the
registry "aborts the run with an error naming the missing identifier and the
expected entity type". -/
def registryGet (entityType : String) (reg : List (String × α)) (entityId : String) :
    Except ExtractError α :=
  match assocGet reg entityId with
  | some v => .ok v
  | none => .error (.unresolved entityType entityId)

/-- `_extract_messages_choice`: append the label message. -/
def extractChoice (choice : Choice) (msgs : List ExtractedMessage) :
    List ExtractedMessage :=
  msgs ++ [⟨choice.label, "choice", choice.uuid, "label"⟩]

/-- `_extract_messages_reference`: URL references contribute their label,
cross references their description, anything else nothing. -/
def extractReference (reference : Reference) (msgs : List ExtractedMessage) :
    List ExtractedMessage :=
  match reference with
  | .url u label => msgs ++ [⟨label, "url-reference", u, "label"⟩]
  | .cross u description => msgs ++ [⟨description, "cross-reference", u, "description"⟩]
  | .other _ => msgs

/-- The loop over `question.choice_uuids`: resolve each choice and visit it. -/
def extractChoices (km : KnowledgeModel) :
    List String → List ExtractedMessage → Except ExtractError (List ExtractedMessage)
  | [], msgs => .ok msgs
  | u :: us, msgs =>
    match registryGet "choice" km.entities.choices u with
    | .error e => .error e
    | .ok choice => extractChoices km us (extractChoice choice msgs)

/-- The loop over `question.reference_uuids`. -/
def extractReferences (km : KnowledgeModel) :
    List String → List ExtractedMessage → Except ExtractError (List ExtractedMessage)
  | [], msgs => .ok msgs
  | u :: us, msgs =>
    match registryGet "reference" km.entities.references u with
    | .error e => .error e
    | .ok reference => extractReferences km us (extractReference reference msgs)

/-- `if isinstance(question, MultiChoiceQuestion): for choice_uuid in ...`:
run the choice loop exactly when the node carries the MultiChoice variant's
`choice_uuids`. -/
def extractChoicesOpt (km : KnowledgeModel) :
    Option (List String) → List ExtractedMessage → Except ExtractError (List ExtractedMessage)
  | some us, msgs => extractChoices km us msgs
  | none, msgs => .ok msgs

mutual

/-- `_extract_messages_question`: title always, text if non-empty, then the
variant-specific children (item-template questions, choices, answers), then
the references. -/
def extractQuestion (km : KnowledgeModel) :
    Nat → Question → List ExtractedMessage → Except ExtractError (List ExtractedMessage)
  | 0, _, _ => .error .outOfFuel
  | fuel + 1, question, msgs =>
    let msgs := msgs ++ [⟨question.title, "question", question.uuid, "title"⟩]
    let msgs := if question.text = "" then msgs
      else msgs ++ [⟨question.text, "question", question.uuid, "text"⟩]
    match extractItemTemplates km fuel question.item_template_question_uuids msgs with
    | .error e => .error e
    | .ok msgs =>
      match extractChoicesOpt km question.choice_uuids msgs with
      | .error e => .error e
      | .ok msgs =>
        match extractAnswersOpt km fuel question.answer_uuids msgs with
        | .error e => .error e
        | .ok msgs => extractReferences km question.reference_uuids msgs

/-- `if isinstance(question, ListQuestion): for question_uuid in ...`:
run the item-template loop exactly when the node carries the List variant's
`item_template_question_uuids`. -/
def extractItemTemplates (km : KnowledgeModel) :
    Nat → Option (List String) → List ExtractedMessage → Except ExtractError (List ExtractedMessage)
  | _, none, msgs => .ok msgs
  | 0, some _, _ => .error .outOfFuel
  | fuel + 1, some us, msgs => extractQuestions km fuel us msgs

/-- The loop over a list of question identifiers (chapter questions,
item-template questions, follow-up questions). -/
def extractQuestions (km : KnowledgeModel) :
    Nat → List String → List ExtractedMessage → Except ExtractError (List ExtractedMessage)
  | _, [], msgs => .ok msgs
  | 0, _ :: _, _ => .error .outOfFuel
  | fuel + 1, u :: us, msgs =>
    match registryGet "question" km.entities.questions u with
    | .error e => .error e
    | .ok question =>
      match extractQuestion km fuel question msgs with
      | .error e => .error e
      | .ok msgs => extractQuestions km fuel us msgs

/-- `if isinstance(question, OptionsQuestion): for answer_uuid in ...`:
run the answer loop exactly when the node carries the Options variant's
`answer_uuids`. -/
def extractAnswersOpt (km : KnowledgeModel) :
    Nat → Option (List String) → List ExtractedMessage → Except ExtractError (List ExtractedMessage)
  | _, none, msgs => .ok msgs
  | 0, some _, _ => .error .outOfFuel
  | fuel + 1, some us, msgs => extractAnswers km fuel us msgs

/-- `_extract_messages_answer`: label always, advice if non-empty, then the
follow-up questions. -/
def extractAnswer (km : KnowledgeModel) :
    Nat → Answer → List ExtractedMessage → Except ExtractError (List ExtractedMessage)
  | 0, _, _ => .error .outOfFuel
  | fuel + 1, answer, msgs =>
    let msgs := msgs ++ [⟨answer.label, "answer", answer.uuid, "label"⟩]
    let msgs := if answer.advice = "" then msgs
      else msgs ++ [⟨answer.advice, "answer", answer.uuid, "advice"⟩]
    extractQuestions km fuel answer.follow_up_uuids msgs

/-- The loop over `question.answer_uuids`. -/
def extractAnswers (km : KnowledgeModel) :
    Nat → List String → List ExtractedMessage → Except ExtractError (List ExtractedMessage)
  | _, [], msgs => .ok msgs
  | 0, _ :: _, _ => .error .outOfFuel
  | fuel + 1, u :: us, msgs =>
    match registryGet "answer" km.entities.answers u with
    | .error e => .error e
    | .ok answer =>
      match extractAnswer km fuel answer msgs with
      | .error e => .error e
      | .ok msgs => extractAnswers km fuel us msgs

end

/-- `_extract_messages_chapter`: title always, text if non-empty, then the
chapter's questions in declared order. -/
def extractChapter (km : KnowledgeModel) (fuel : Nat) (chapter : Chapter)
    (msgs : List ExtractedMessage) : Except ExtractError (List ExtractedMessage) :=
  let msgs := msgs ++ [⟨chapter.title, "chapter", chapter.uuid, "title"⟩]
  let msgs := if chapter.text = "" then msgs
    else msgs ++ [⟨chapter.text, "chapter", chapter.uuid, "text"⟩]
  extractQuestions km fuel chapter.question_uuids msgs

/-- The loop in `extract_messages` over `km.chapter_uuids`. -/
def extractChapters (km : KnowledgeModel) (fuel : Nat) :
    List String → List ExtractedMessage → Except ExtractError (List ExtractedMessage)
  | [], msgs => .ok msgs
  | u :: us, msgs =>
    match registryGet "chapter" km.entities.chapters u with
    | .error e => .error e
    | .ok chapter =>
      match extractChapter km fuel chapter msgs with
      | .error e => .error e
      | .ok msgs => extractChapters km fuel us msgs

/-- `_extract_messages_phase` (never reached from `extract_messages`). -/
def extractPhase (phase : Phase) (msgs : List ExtractedMessage) :
    List ExtractedMessage :=
  let msgs := msgs ++ [⟨phase.title, "phase", phase.uuid, "title"⟩]
  if phase.description = "" then msgs
  else msgs ++ [⟨phase.description, "phase", phase.uuid, "description"⟩]

/-- `_extract_messages_tag` (never reached from `extract_messages`). -/
def extractTag (tag : Tag) (msgs : List ExtractedMessage) :
    List ExtractedMessage :=
  let msgs := msgs ++ [⟨tag.name, "tag", tag.uuid, "name"⟩]
  if tag.description = "" then msgs
  else msgs ++ [⟨tag.description, "tag", tag.uuid, "description"⟩]

/-- `_extract_messages_metric` (never reached from `extract_messages`);
note the source tags these with entity type `metrics`. -/
def extractMetric (metric : Metric) (msgs : List ExtractedMessage) :
    List ExtractedMessage :=
  let msgs := msgs ++ [⟨metric.title, "metrics", metric.uuid, "title"⟩]
  if metric.description = "" then msgs
  else msgs ++ [⟨metric.description, "metrics", metric.uuid, "description"⟩]

/-- `_extract_messages_resource_page` (never reached from `extract_messages`). -/
def extractResourcePage (rp : ResourcePage) (msgs : List ExtractedMessage) :
    List ExtractedMessage :=
  let msgs := msgs ++ [⟨rp.title, "resource_page", rp.uuid, "title"⟩]
  if rp.content = "" then msgs
  else msgs ++ [⟨rp.content, "resource_page", rp.uuid, "content"⟩]

/-- The loop over `rc.resource_page_uuids`. -/
def extractResourcePages (km : KnowledgeModel) :
    List String → List ExtractedMessage → Except ExtractError (List ExtractedMessage)
  | [], msgs => .ok msgs
  | u :: us, msgs =>
    match registryGet "resource_page" km.entities.resource_pages u with
    | .error e => .error e
    | .ok rp => extractResourcePages km us (extractResourcePage rp msgs)

/-- `_extract_messages_resource_collection` (never reached from
`extract_messages`). -/
def extractResourceCollection (km : KnowledgeModel) (rc : ResourceCollection)
    (msgs : List ExtractedMessage) : Except ExtractError (List ExtractedMessage) :=
  extractResourcePages km rc.resource_page_uuids
    (msgs ++ [⟨rc.title, "resource_collection", rc.uuid, "title"⟩])

/-- The `MessageExtractor` object: the knowledge model plus the mutable
`self.messages` accumulator. -/
structure MessageExtractor where
  km : KnowledgeModel
  messages : List ExtractedMessage
  deriving Repr, DecidableEq

/-- `MessageExtractor.__init__`: stores the model, `self.messages = []`. -/
def MessageExtractor.mk0 (km : KnowledgeModel) : MessageExtractor :=
  { km := km, messages := [] }

/-- `MessageExtractor.reset`: `self.messages.clear()`. -/
def MessageExtractor.reset (e : MessageExtractor) : MessageExtractor :=
  { e with messages := [] }

/-- `MessageExtractor.extract_messages`: reset, walk every chapter in
declared order, return the accumulated messages (with the post-call object
state, since the method mutates `self`). -/
def MessageExtractor.extract_messages (fuel : Nat) (e : MessageExtractor) :
    Except ExtractError (MessageExtractor × List ExtractedMessage) :=
  let e := e.reset
  match extractChapters e.km fuel e.km.chapter_uuids e.messages with
  | .error err => .error err
  | .ok msgs => .ok ({ e with messages := msgs }, msgs)

/-- Python-set insertion into the per-msgid location set
(`locs_by_msgid[occ.msgid].add(...)`): membership-tested, first-insertion
order retained. -/
def setInsert (l : List (String × Nat)) (x : String × Nat) : List (String × Nat) :=
  if x ∈ l then l else l ++ [x]

/-- One step of the grouping dictionary update:
`locs_by_msgid[k].add(loc)` on a `defaultdict(set)` modelled as an
insertion-ordered association list. -/
def addLoc : List (String × List (String × Nat)) → String → String × Nat →
    List (String × List (String × Nat))
  | [], k, loc => [(k, [loc])]
  | (k', v) :: rest, k, loc =>
    if k' = k then (k', setInsert v loc) :: rest
    else (k', v) :: addLoc rest k loc

/-- The first loop of `build_pot`, one message at a time: skip falsy
(empty) msgids, otherwise add `(occ.path, occ.line)` to the msgid's set. -/
def locsByMsgidAux : List (String × List (String × Nat)) → List ExtractedMessage →
    List (String × List (String × Nat))
  | d, [] => d
  | d, occ :: rest =>
    locsByMsgidAux
      (if occ.msgid = "" then d else addLoc d occ.msgid (occ.path, occ.line)) rest

/-- The grouping dict `locs_by_msgid` after the first loop of `build_pot`. -/
def locsByMsgid (messages : List ExtractedMessage) :
    List (String × List (String × Nat)) :=
  locsByMsgidAux [] messages

/-- The location set stored for a msgid (empty when the key is absent, as
for a fresh `defaultdict(set)` entry). -/
def dictGet (d : List (String × List (String × Nat))) (k : String) :
    List (String × Nat) :=
  (assocGet d k).getD []

/-- Structural lexicographic comparison of char lists (Python's string
`<`); used only to give the sort relations kernel-computable decidability
instances, and proved equivalent to Mathlib's `String` order below. -/
def charListLt : List Char → List Char → Bool
  | [], [] => false
  | [], _ :: _ => true
  | _ :: _, [] => false
  | a :: as, b :: bs =>
    if a < b then true else if b < a then false else charListLt as bs

/-- `charListLt` decides the lexicographic strict order. -/
def charListLt_lex : ∀ as bs : List Char,
    charListLt as bs = true ↔ List.Lex (· < ·) as bs
  | [], [] => by simp [charListLt]
  | [], _ :: _ => by simp [charListLt]; exact .nil
  | _ :: _, [] => by simp [charListLt]
  | a :: as, b :: bs => by
    simp only [charListLt]
    split_ifs with h1 h2
    · simp only [true_iff]
      exact .rel h1
    · simp only [false_iff]
      intro hlex
      cases hlex with
      | cons h => exact absurd h2 (lt_irrefl a)
      | rel h => exact absurd h h1
    · have hab : a = b := le_antisymm (not_lt.mp h2) (not_lt.mp h1)
      subst hab
      rw [charListLt_lex as bs]
      exact (List.Lex.cons_iff (r := (· < ·))).symm

/-- `charListLt` on the underlying char lists decides `String` `<`. -/
def charListLt_string (a b : String) : charListLt a.data b.data = true ↔ a < b := by
  rw [String.lt_iff_toList_lt]
  exact charListLt_lex a.data b.data

/-- Sort key of `sorted(locs_by_msgid.items(), key=lambda kv: kv[0])`. -/
def keyLe (a b : String × List (String × Nat)) : Prop := a.1 ≤ b.1

instance : DecidableRel keyLe := fun a b =>
  decidable_of_iff (charListLt b.1.data a.1.data = false) (by
    rw [Bool.eq_false_iff, Ne, charListLt_string]
    exact not_lt)

instance : IsTotal (String × List (String × Nat)) keyLe :=
  ⟨fun a b => le_total a.1 b.1⟩

instance : IsTrans (String × List (String × Nat)) keyLe :=
  ⟨fun _ _ _ hab hbc => le_trans hab hbc⟩

/-- Sort key of `sorted(locs, key=lambda t: (t[0], t[1]))`: the
lexicographic order on (path, line) pairs, as Python compares tuples. -/
def locLe (a b : String × Nat) : Prop :=
  a.1 < b.1 ∨ (a.1 = b.1 ∧ a.2 ≤ b.2)

instance : DecidableRel locLe := fun a b =>
  decidable_of_iff (charListLt a.1.data b.1.data = true ∨ (a.1 = b.1 ∧ a.2 ≤ b.2))
    (by rw [charListLt_string]; exact Iff.rfl)

instance : IsTotal (String × Nat) locLe := by
  constructor
  intro a b
  rcases lt_trichotomy a.1 b.1 with h | h | h
  · exact Or.inl (Or.inl h)
  · rcases le_total a.2 b.2 with h2 | h2
    · exact Or.inl (Or.inr ⟨h, h2⟩)
    · exact Or.inr (Or.inr ⟨h.symm, h2⟩)
  · exact Or.inr (Or.inl h)

instance : IsTrans (String × Nat) locLe := by
  constructor
  rintro a b c (hab | ⟨hab, hab2⟩) (hbc | ⟨hbc, hbc2⟩)
  · exact Or.inl (lt_trans hab hbc)
  · exact Or.inl (hbc ▸ hab)
  · exact Or.inl (hab ▸ hbc)
  · exact Or.inr ⟨hab.trans hbc, le_trans hab2 hbc2⟩

/-- `build_pot` up to serialization: group locations by msgid (empty msgids
skipped), sort the entries by msgid, and sort each entry's locations by the
(path, line) pair — the ordered list of `catalog.add` calls. -/
def build_pot (messages : List ExtractedMessage) :
    List (String × List (String × Nat)) :=
  (List.insertionSort keyLe (locsByMsgid messages)).map
    (fun kv => (kv.1, List.insertionSort locLe kv.2))

/-- Ordering of locations by their path (full location string) alone,
ignoring the line component. -/
def pathLe (a b : String × Nat) : Prop := a.1 ≤ b.1

instance : DecidableRel pathLe := fun a b =>
  decidable_of_iff (charListLt b.1.data a.1.data = false) (by
    rw [Bool.eq_false_iff, Ne, charListLt_string]
    exact not_lt)

/-- Variant of `build_pot` that sorts each entry's locations by the full
location string alone (no line tiebreak). -/
def build_potByPath (messages : List ExtractedMessage) :
    List (String × List (String × Nat)) :=
  (List.insertionSort keyLe (locsByMsgid messages)).map
    (fun kv => (kv.1, List.insertionSort pathLe kv.2))

/-- The `__main__` pipeline on an already-parsed model: fresh extractor,
extract, build the catalog. -/
def runCatalog (km : KnowledgeModel) (fuel : Nat) :
    Except ExtractError (List (String × List (String × Nat))) :=
  match (MessageExtractor.mk0 km).extract_messages fuel with
  | .error e => .error e
  | .ok (_, msgs) => .ok (build_pot msgs)

/-- An accumulator-passing extraction step only ever appends: its output on
any accumulator is that accumulator followed by what the step produces from
an empty accumulator. -/
def Emits (F : List ExtractedMessage → Except ExtractError (List ExtractedMessage)) : Prop :=
  ∀ msgs, F msgs = Except.map (fun l => msgs ++ l) (F [])

/-- The concrete scenario from the spec: one chapter `C1` ("Intro", blank
text) with one plain question `Q1` ("Name?", blank text) carrying one URL
reference `R1` ("See docs"). -/
def kmScenario : KnowledgeModel :=
  { chapter_uuids := ["C1"]
    entities :=
      { chapters := [("C1",
          { uuid := "C1", title := "Intro", text := "", question_uuids := ["Q1"] })]
        questions := [("Q1",
          { uuid := "Q1", title := "Name?", text := ""
            item_template_question_uuids := none
            choice_uuids := none
            answer_uuids := none
            reference_uuids := ["R1"] })]
        choices := []
        answers := []
        references := [("R1", .url "R1" "See docs")]
        tags := []
        metrics := []
        phases := []
        resource_collections := []
        resource_pages := [] } }

/-- A model whose registry holds an orphan multi-choice question `Q1`
referencing a choice identifier `missing` that is absent from the registry;
no chapter reaches `Q1`, so the root traversal never performs the failing
lookup. -/
def kmOrphan : KnowledgeModel :=
  { chapter_uuids := []
    entities :=
      { chapters := []
        questions := [("Q1",
          { uuid := "Q1", title := "T", text := ""
            item_template_question_uuids := none
            choice_uuids := some ["missing"]
            answer_uuids := none
            reference_uuids := [] })]
        choices := []
        answers := []
        references := []
        tags := []
        metrics := []
        phases := []
        resource_collections := []
        resource_pages := [] } }

/-- An empty registry, used to witness unresolved-lookup propagation. -/
def kmEmpty : KnowledgeModel :=
  { chapter_uuids := ["C0"]
    entities :=
      { chapters := []
        questions := []
        choices := []
        answers := []
        references := []
        tags := []
        metrics := []
        phases := []
        resource_collections := []
        resource_pages := [] } }

/-- The entity types that the root chapter traversal can stamp on a
message. -/
def rootEntityTypes : List String :=
  ["chapter", "question", "choice", "answer", "url-reference", "cross-reference"]

/-- A message whose `entity_type` is one of the six kinds reachable from the
root chapter traversal. -/
def TypeOk (m : ExtractedMessage) : Prop := m.entity_type ∈ rootEntityTypes

/-- The single plain question of `kmScenario`. -/
def qScenario : Question :=
  { uuid := "Q1", title := "Name?", text := ""
    item_template_question_uuids := none
    choice_uuids := none
    answer_uuids := none
    reference_uuids := ["R1"] }

/-- `kmScenario` with a tag, a metric, a phase and a resource collection
added to the registry: none of them is reachable from the chapter
traversal. -/
def kmTagged : KnowledgeModel :=
  { chapter_uuids := ["C1"]
    entities :=
      { chapters := [("C1",
          { uuid := "C1", title := "Intro", text := "", question_uuids := ["Q1"] })]
        questions := [("Q1", qScenario)]
        choices := []
        answers := []
        references := [("R1", .url "R1" "See docs")]
        tags := [("T1", { uuid := "T1", name := "TagName", description := "TagDesc" })]
        metrics := [("M1", { uuid := "M1", title := "MetricTitle", description := "" })]
        phases := [("P1", { uuid := "P1", title := "PhaseTitle", description := "" })]
        resource_collections := [("RC1",
          { uuid := "RC1", title := "RCTitle", resource_page_uuids := ["RP1"] })]
        resource_pages := [("RP1",
          { uuid := "RP1", title := "RPTitle", content := "" })] } }

/-- Two choice records with identical labels under different choice nodes
(the spec's second concrete scenario). -/
def msPair : List ExtractedMessage :=
  [⟨"Yes", "choice", "A", "label"⟩, ⟨"Yes", "choice", "B", "label"⟩]

/-- A plain question with an empty (but always-emitted) title. -/
def qBlank : Question :=
  { uuid := "QB", title := "", text := ""
    item_template_question_uuids := none
    choice_uuids := none
    answer_uuids := none
    reference_uuids := [] }

/-- The record sequence extracted from `kmScenario` (and from `kmTagged`). -/
def outScenario : List ExtractedMessage :=
  [⟨"Intro", "chapter", "C1", "title"⟩,
   ⟨"Name?", "question", "Q1", "title"⟩,
   ⟨"See docs", "url-reference", "R1", "label"⟩]

theorem map_map_append (msgs new : List ExtractedMessage)
    (e : Except ExtractError (List ExtractedMessage)) :
    Except.map (fun l => (msgs ++ new) ++ l) e
      = Except.map (fun l => msgs ++ l) (Except.map (fun l => new ++ l) e) := by
  cases e <;> simp [Except.map, List.append_assoc]

theorem extractReference_app (r : Reference) (msgs : List ExtractedMessage) :
    extractReference r msgs = msgs ++ extractReference r [] := by
  cases r <;> simp [extractReference]

theorem extractChoices_frame (km : KnowledgeModel) :
    ∀ (us : List String), Emits (extractChoices km us)
  | [], msgs => by simp [extractChoices, Except.map]
  | u :: us, msgs => by
    simp only [extractChoices]
    cases registryGet "choice" km.entities.choices u with
    | error e => simp [Except.map]
    | ok choice =>
      dsimp only
      rw [extractChoices_frame km us (extractChoice choice msgs),
          extractChoices_frame km us (extractChoice choice [])]
      simp only [extractChoice, List.nil_append]
      exact map_map_append msgs _ _

theorem extractReferences_frame (km : KnowledgeModel) :
    ∀ (us : List String), Emits (extractReferences km us)
  | [], msgs => by simp [extractReferences, Except.map]
  | u :: us, msgs => by
    simp only [extractReferences]
    cases registryGet "reference" km.entities.references u with
    | error e => simp [Except.map]
    | ok reference =>
      dsimp only
      rw [extractReferences_frame km us (extractReference reference msgs),
          extractReferences_frame km us (extractReference reference []),
          extractReference_app reference msgs]
      exact map_map_append msgs _ _

theorem emits_seq {F G : List ExtractedMessage → Except ExtractError (List ExtractedMessage)}
    (hF : Emits F) (hG : Emits G) :
    Emits (fun msgs => match F msgs with | .error e => .error e | .ok l => G l) := by
  intro msgs
  dsimp only
  rw [hF msgs]
  cases hFe : F [] with
  | error e => simp [Except.map]
  | ok new =>
    simp only [Except.map]
    rw [hG (msgs ++ new), hG new]
    cases G [] <;> simp [Except.map, List.append_assoc]

theorem frame_step {F : List ExtractedMessage → Except ExtractError (List ExtractedMessage)}
    (hF : Emits F) (msgs pre : List ExtractedMessage) :
    F (msgs ++ pre) = Except.map (fun l => msgs ++ l) (F pre) := by
  rw [hF (msgs ++ pre), hF pre]
  cases F [] <;> simp [Except.map, List.append_assoc]

theorem emits_of_shift {F G : List ExtractedMessage → Except ExtractError (List ExtractedMessage)}
    (hF : Emits F) (pre : List ExtractedMessage)
    (hG : ∀ msgs, G msgs = F (msgs ++ pre)) : Emits G := by
  intro msgs
  rw [hG msgs, hG [], List.nil_append]
  exact frame_step hF msgs pre

theorem extractChoicesOpt_frame (km : KnowledgeModel) (o : Option (List String)) :
    Emits (extractChoicesOpt km o) := by
  cases o with
  | some us =>
    intro msgs
    simp only [extractChoicesOpt]
    exact extractChoices_frame km us msgs
  | none => intro msgs; simp [extractChoicesOpt, Except.map]

theorem extract_frame : ∀ fuel : Nat,
    (∀ km q, Emits (extractQuestion km fuel q)) ∧
    (∀ km o, Emits (extractItemTemplates km fuel o)) ∧
    (∀ km us, Emits (extractQuestions km fuel us)) ∧
    (∀ km o, Emits (extractAnswersOpt km fuel o)) ∧
    (∀ km a, Emits (extractAnswer km fuel a)) ∧
    (∀ km us, Emits (extractAnswers km fuel us)) := by
  intro fuel
  induction fuel with
  | zero =>
    refine ⟨?_, ?_, ?_, ?_, ?_, ?_⟩
    · intro km q msgs; simp [extractQuestion, Except.map]
    · intro km o msgs; cases o <;> simp [extractItemTemplates, Except.map]
    · intro km us msgs; cases us <;> simp [extractQuestions, Except.map]
    · intro km o msgs; cases o <;> simp [extractAnswersOpt, Except.map]
    · intro km a msgs; simp [extractAnswer, Except.map]
    · intro km us msgs; cases us <;> simp [extractAnswers, Except.map]
  | succ fuel ih =>
    obtain ⟨ihQ, ihIT, ihQs, ihAO, ihA, ihAs⟩ := ih
    have hIT : ∀ km o, Emits (extractItemTemplates km (fuel + 1) o) := by
      intro km o
      cases o with
      | some us =>
        intro msgs
        simp only [extractItemTemplates]
        exact ihQs km us msgs
      | none => intro msgs; simp [extractItemTemplates, Except.map]
    have hAO : ∀ km o, Emits (extractAnswersOpt km (fuel + 1) o) := by
      intro km o
      cases o with
      | some us =>
        intro msgs
        simp only [extractAnswersOpt]
        exact ihAs km us msgs
      | none => intro msgs; simp [extractAnswersOpt, Except.map]
    have hQ : ∀ km q, Emits (extractQuestion km (fuel + 1) q) := by
      intro km q
      have hchain : Emits (fun l =>
          match extractItemTemplates km fuel q.item_template_question_uuids l with
          | .error e => .error e
          | .ok l =>
            match extractChoicesOpt km q.choice_uuids l with
            | .error e => .error e
            | .ok l =>
              match extractAnswersOpt km fuel q.answer_uuids l with
              | .error e => .error e
              | .ok l => extractReferences km q.reference_uuids l) :=
        emits_seq (ihIT km q.item_template_question_uuids)
          (emits_seq (extractChoicesOpt_frame km q.choice_uuids)
            (emits_seq (ihAO km q.answer_uuids)
              (extractReferences_frame km q.reference_uuids)))
      refine emits_of_shift hchain
        ([⟨q.title, "question", q.uuid, "title"⟩]
          ++ (if q.text = "" then [] else [⟨q.text, "question", q.uuid, "text"⟩]))
        (fun ms => ?_)
      by_cases htext : q.text = "" <;>
        simp only [extractQuestion, htext, if_true, if_false, ite_true, ite_false,
          List.append_nil, List.append_assoc]
    have hA : ∀ km a, Emits (extractAnswer km (fuel + 1) a) := by
      intro km a
      refine emits_of_shift (ihQs km a.follow_up_uuids)
        ([⟨a.label, "answer", a.uuid, "label"⟩]
          ++ (if a.advice = "" then [] else [⟨a.advice, "answer", a.uuid, "advice"⟩]))
        (fun ms => ?_)
      by_cases hadv : a.advice = "" <;>
        simp only [extractAnswer, hadv, if_true, if_false, ite_true, ite_false,
          List.append_nil, List.append_assoc]
    have hQs : ∀ km us, Emits (extractQuestions km (fuel + 1) us) := by
      intro km us
      cases us with
      | nil => intro msgs; simp [extractQuestions, Except.map]
      | cons u us =>
        intro msgs
        simp only [extractQuestions]
        cases registryGet "question" km.entities.questions u with
        | error e => simp [Except.map]
        | ok question =>
          dsimp only
          exact emits_seq (ihQ km question) (ihQs km us) msgs
    have hAs : ∀ km us, Emits (extractAnswers km (fuel + 1) us) := by
      intro km us
      cases us with
      | nil => intro msgs; simp [extractAnswers, Except.map]
      | cons u us =>
        intro msgs
        simp only [extractAnswers]
        cases registryGet "answer" km.entities.answers u with
        | error e => simp [Except.map]
        | ok answer =>
          dsimp only
          exact emits_seq (ihA km answer) (ihAs km us) msgs
    exact ⟨hQ, hIT, hQs, hAO, hA, hAs⟩

theorem extractChapter_frame (km : KnowledgeModel) (fuel : Nat) (chapter : Chapter) :
    Emits (extractChapter km fuel chapter) := by
  refine emits_of_shift ((extract_frame fuel).2.2.1 km chapter.question_uuids)
    ([⟨chapter.title, "chapter", chapter.uuid, "title"⟩]
      ++ (if chapter.text = "" then []
          else [⟨chapter.text, "chapter", chapter.uuid, "text"⟩]))
    (fun ms => ?_)
  by_cases htext : chapter.text = "" <;>
    simp only [extractChapter, htext, if_true, if_false, ite_true, ite_false,
      List.append_nil, List.append_assoc]

theorem extractChapters_frame (km : KnowledgeModel) (fuel : Nat) :
    ∀ us : List String, Emits (extractChapters km fuel us)
  | [] => by intro msgs; simp [extractChapters, Except.map]
  | u :: us => by
    intro msgs
    simp only [extractChapters]
    cases registryGet "chapter" km.entities.chapters u with
    | error e => simp [Except.map]
    | ok chapter =>
      dsimp only
      exact emits_seq (extractChapter_frame km fuel chapter)
        (extractChapters_frame km fuel us) msgs

theorem setInsert_mem (l : List (String × Nat)) (x y : String × Nat) :
    x ∈ setInsert l y ↔ x ∈ l ∨ x = y := by
  unfold setInsert
  split
  · rename_i hy
    constructor
    · exact Or.inl
    · rintro (h | rfl)
      · exact h
      · exact hy
  · simp

theorem setInsert_nodup (l : List (String × Nat)) (y : String × Nat)
    (h : l.Nodup) : (setInsert l y).Nodup := by
  unfold setInsert
  split
  · exact h
  · rename_i hy
    simp only [List.nodup_append, List.nodup_cons, List.not_mem_nil,
      not_false_iff, List.nodup_nil, and_true, true_and, List.disjoint_singleton]
    exact ⟨h, hy⟩

theorem addLoc_fst_mem (d : List (String × List (String × Nat))) (k t : String)
    (loc : String × Nat) :
    t ∈ (addLoc d k loc).map Prod.fst ↔ t ∈ d.map Prod.fst ∨ t = k := by
  induction d with
  | nil => simp [addLoc]
  | cons kv rest ih =>
    obtain ⟨k', v⟩ := kv
    by_cases hk : k' = k
    · simp only [addLoc, if_pos hk, List.map_cons, List.mem_cons]
      subst hk
      tauto
    · simp only [addLoc, if_neg hk, List.map_cons, List.mem_cons, ih]
      tauto

theorem addLoc_fst_nodup (d : List (String × List (String × Nat))) (k : String)
    (loc : String × Nat) (h : (d.map Prod.fst).Nodup) :
    ((addLoc d k loc).map Prod.fst).Nodup := by
  induction d with
  | nil => simp [addLoc]
  | cons kv rest ih =>
    obtain ⟨k', v⟩ := kv
    simp only [List.map_cons, List.nodup_cons] at h
    obtain ⟨hk', hrest⟩ := h
    by_cases hk : k' = k
    · simp only [addLoc, if_pos hk, List.map_cons, List.nodup_cons]
      exact ⟨hk', hrest⟩
    · simp only [addLoc, if_neg hk, List.map_cons, List.nodup_cons]
      refine ⟨?_, ih hrest⟩
      rw [addLoc_fst_mem]
      rintro (h | h)
      · exact hk' h
      · exact hk h

theorem assocGet_addLoc_self (d : List (String × List (String × Nat)))
    (k : String) (loc : String × Nat) :
    assocGet (addLoc d k loc) k = some (setInsert (dictGet d k) loc) := by
  induction d with
  | nil => simp [addLoc, assocGet, dictGet, setInsert]
  | cons kv rest ih =>
    obtain ⟨k', v⟩ := kv
    by_cases hk : k' = k
    · subst hk
      simp [addLoc, assocGet, dictGet]
    · simp [addLoc, assocGet, hk, ih, dictGet]

theorem assocGet_addLoc_other (d : List (String × List (String × Nat)))
    (k t : String) (loc : String × Nat) (ht : t ≠ k) :
    assocGet (addLoc d k loc) t = assocGet d t := by
  induction d with
  | nil =>
    have : k ≠ t := fun h => ht h.symm
    simp [addLoc, assocGet, this]
  | cons kv rest ih =>
    obtain ⟨k', v⟩ := kv
    by_cases hk : k' = k
    · have hknt : k' ≠ t := fun hh => ht (hh.symm.trans hk)
      simp [addLoc, if_pos hk, assocGet, hknt]
    · by_cases hkt : k' = t
      · subst hkt
        simp [addLoc, assocGet, hk]
      · simp [addLoc, assocGet, hk, hkt, ih]

theorem dictGet_addLoc_self (d : List (String × List (String × Nat)))
    (k : String) (loc : String × Nat) :
    dictGet (addLoc d k loc) k = setInsert (dictGet d k) loc := by
  rw [dictGet, assocGet_addLoc_self]
  rfl

theorem dictGet_addLoc_other (d : List (String × List (String × Nat)))
    (k t : String) (loc : String × Nat) (ht : t ≠ k) :
    dictGet (addLoc d k loc) t = dictGet d t := by
  rw [dictGet, assocGet_addLoc_other d k t loc ht, dictGet]

theorem locsByMsgidAux_keys : ∀ (ms : List ExtractedMessage)
    (d : List (String × List (String × Nat))) (t : String),
    t ∈ (locsByMsgidAux d ms).map Prod.fst ↔
      t ∈ d.map Prod.fst ∨ ∃ m ∈ ms, m.msgid = t ∧ t ≠ ""
  | [], d, t => by simp [locsByMsgidAux]
  | occ :: rest, d, t => by
    simp only [locsByMsgidAux]
    rw [locsByMsgidAux_keys rest _ t]
    by_cases h : occ.msgid = ""
    · rw [if_pos h]
      simp only [List.mem_cons]
      constructor
      · rintro (hd | ⟨m, hm, hmt, hne⟩)
        · exact Or.inl hd
        · exact Or.inr ⟨m, Or.inr hm, hmt, hne⟩
      · rintro (hd | ⟨m, (rfl | hm), hmt, hne⟩)
        · exact Or.inl hd
        · exact absurd (hmt.symm.trans h) hne
        · exact Or.inr ⟨m, hm, hmt, hne⟩
    · rw [if_neg h, addLoc_fst_mem]
      simp only [List.mem_cons]
      constructor
      · rintro ((hd | rfl) | ⟨m, hm, hmt, hne⟩)
        · exact Or.inl hd
        · exact Or.inr ⟨occ, Or.inl rfl, rfl, h⟩
        · exact Or.inr ⟨m, Or.inr hm, hmt, hne⟩
      · rintro (hd | ⟨m, (rfl | hm), hmt, hne⟩)
        · exact Or.inl (Or.inl hd)
        · exact Or.inl (Or.inr hmt.symm)
        · exact Or.inr ⟨m, hm, hmt, hne⟩

theorem locsByMsgidAux_keys_nodup : ∀ (ms : List ExtractedMessage)
    (d : List (String × List (String × Nat))),
    (d.map Prod.fst).Nodup → ((locsByMsgidAux d ms).map Prod.fst).Nodup
  | [], _, h => h
  | occ :: rest, d, h => by
    simp only [locsByMsgidAux]
    apply locsByMsgidAux_keys_nodup rest
    split
    · exact h
    · exact addLoc_fst_nodup d occ.msgid (occ.path, occ.line) h

theorem locsByMsgidAux_get : ∀ (ms : List ExtractedMessage)
    (d : List (String × List (String × Nat))) (t : String) (loc : String × Nat),
    loc ∈ dictGet (locsByMsgidAux d ms) t ↔
      loc ∈ dictGet d t ∨ ∃ m ∈ ms, m.msgid = t ∧ t ≠ "" ∧ loc = (m.path, m.line)
  | [], d, t, loc => by simp [locsByMsgidAux]
  | occ :: rest, d, t, loc => by
    simp only [locsByMsgidAux]
    rw [locsByMsgidAux_get rest _ t loc]
    by_cases h : occ.msgid = ""
    · rw [if_pos h]
      simp only [List.mem_cons]
      constructor
      · rintro (hd | ⟨m, hm, hmt, hne, hl⟩)
        · exact Or.inl hd
        · exact Or.inr ⟨m, Or.inr hm, hmt, hne, hl⟩
      · rintro (hd | ⟨m, (rfl | hm), hmt, hne, hl⟩)
        · exact Or.inl hd
        · exact absurd (hmt.symm.trans h) hne
        · exact Or.inr ⟨m, hm, hmt, hne, hl⟩
    · rw [if_neg h]
      by_cases hocc : occ.msgid = t
      · subst hocc
        rw [dictGet_addLoc_self, setInsert_mem]
        simp only [List.mem_cons]
        constructor
        · rintro ((hd | rfl) | ⟨m, hm, hmt, hne, hl⟩)
          · exact Or.inl hd
          · exact Or.inr ⟨occ, Or.inl rfl, rfl, h, rfl⟩
          · exact Or.inr ⟨m, Or.inr hm, hmt, hne, hl⟩
        · rintro (hd | ⟨m, (rfl | hm), hmt, hne, hl⟩)
          · exact Or.inl (Or.inl hd)
          · exact Or.inl (Or.inr hl)
          · exact Or.inr ⟨m, hm, hmt, hne, hl⟩
      · rw [dictGet_addLoc_other d occ.msgid t _ (fun hh => hocc hh.symm)]
        simp only [List.mem_cons]
        constructor
        · rintro (hd | ⟨m, hm, hmt, hne, hl⟩)
          · exact Or.inl hd
          · exact Or.inr ⟨m, Or.inr hm, hmt, hne, hl⟩
        · rintro (hd | ⟨m, (rfl | hm), hmt, hne, hl⟩)
          · exact Or.inl hd
          · exact absurd hmt hocc
          · exact Or.inr ⟨m, hm, hmt, hne, hl⟩

theorem locsByMsgidAux_val_nodup : ∀ (ms : List ExtractedMessage)
    (d : List (String × List (String × Nat))),
    (∀ k, (dictGet d k).Nodup) → ∀ k, (dictGet (locsByMsgidAux d ms) k).Nodup
  | [], _, h => h
  | occ :: rest, d, h => by
    simp only [locsByMsgidAux]
    apply locsByMsgidAux_val_nodup rest
    intro k
    split
    · exact h k
    · by_cases hk : k = occ.msgid
      · rw [hk, dictGet_addLoc_self]
        exact setInsert_nodup _ _ (h occ.msgid)
      · rw [dictGet_addLoc_other d occ.msgid k _ hk]
        exact h k

theorem locsByMsgidAux_val_zero : ∀ (ms : List ExtractedMessage)
    (d : List (String × List (String × Nat))),
    (∀ k x, x ∈ dictGet d k → x.2 = 0) →
    ∀ k x, x ∈ dictGet (locsByMsgidAux d ms) k → x.2 = 0
  | [], _, h => h
  | occ :: rest, d, h => by
    simp only [locsByMsgidAux]
    apply locsByMsgidAux_val_zero rest
    intro k x hx
    revert hx
    split
    · exact h k x
    · by_cases hk : k = occ.msgid
      · rw [hk, dictGet_addLoc_self, setInsert_mem]
        rintro (hx | rfl)
        · exact h occ.msgid x hx
        · rfl
      · rw [dictGet_addLoc_other d occ.msgid k _ hk]
        exact h k x

theorem locsByMsgidAux_filter : ∀ (ms : List ExtractedMessage)
    (d : List (String × List (String × Nat))),
    locsByMsgidAux d (ms.filter fun m => m.msgid ≠ "") = locsByMsgidAux d ms
  | [], _ => rfl
  | occ :: rest, d => by
    by_cases h : occ.msgid = ""
    · rw [List.filter_cons_of_neg (by simp [h])]
      simp only [locsByMsgidAux, if_pos h]
      exact locsByMsgidAux_filter rest d
    · rw [List.filter_cons_of_pos (by simp [h])]
      simp only [locsByMsgidAux, if_neg h]
      exact locsByMsgidAux_filter rest _

theorem assocGet_mem : ∀ (d : List (String × List (String × Nat)))
    (t : String) (v : List (String × Nat)),
    assocGet d t = some v → (t, v) ∈ d
  | [], t, v, h => by simp [assocGet] at h
  | (k', v') :: rest, t, v, h => by
    rw [assocGet] at h
    by_cases hk : k' = t
    · subst hk
      rw [if_pos rfl] at h
      obtain rfl : v' = v := Option.some.inj h
      exact List.mem_cons_self _ _
    · rw [if_neg hk] at h
      exact List.mem_cons_of_mem _ (assocGet_mem rest t v h)

theorem assocGet_of_mem_keys : ∀ (d : List (String × List (String × Nat)))
    (t : String), t ∈ d.map Prod.fst → ∃ v, assocGet d t = some v
  | [], t, h => by simp at h
  | (k', v') :: rest, t, h => by
    rw [assocGet]
    by_cases hk : k' = t
    · exact ⟨v', if_pos hk⟩
    · rw [if_neg hk]
      apply assocGet_of_mem_keys rest t
      simp only [List.map_cons, List.mem_cons] at h
      rcases h with rfl | h
      · exact absurd rfl hk
      · exact h

theorem filter_keyEq_nil (t : String) :
    ∀ l : List (String × List (String × Nat)),
    t ∉ l.map Prod.fst → l.filter (fun e => e.1 = t) = []
  | [], _ => rfl
  | e :: rest, h => by
    simp only [List.map_cons, List.mem_cons, not_or] at h
    obtain ⟨h1, h2⟩ := h
    have hne : ¬ e.1 = t := fun hh => h1 hh.symm
    rw [List.filter_cons_of_neg (by simp [hne]), filter_keyEq_nil t rest h2]

theorem filter_keyEq_singleton (t : String) (v : List (String × Nat)) :
    ∀ l : List (String × List (String × Nat)),
    (l.map Prod.fst).Nodup → (t, v) ∈ l →
    l.filter (fun e => e.1 = t) = [(t, v)]
  | [], _, hm => by simp at hm
  | e :: rest, hnd, hm => by
    simp only [List.map_cons, List.nodup_cons] at hnd
    obtain ⟨he, hrest⟩ := hnd
    rcases List.mem_cons.mp hm with rfl | hm
    · rw [List.filter_cons_of_pos (by simp)]
      rw [filter_keyEq_nil t rest (by simpa using he)]
    · have hne : e.1 ≠ t := by
        intro hh
        exact he (hh ▸ List.mem_map_of_mem Prod.fst hm)
      rw [List.filter_cons_of_neg (by simp [hne])]
      exact filter_keyEq_singleton t v rest hrest hm

theorem assocGet_of_mem_nodup : ∀ (d : List (String × List (String × Nat)))
    (t : String) (v : List (String × Nat)),
    (d.map Prod.fst).Nodup → (t, v) ∈ d → assocGet d t = some v
  | [], _, _, _, hm => by simp at hm
  | (k', v') :: rest, t, v, hnd, hm => by
    simp only [List.map_cons, List.nodup_cons] at hnd
    obtain ⟨hk', hrest⟩ := hnd
    rcases List.mem_cons.mp hm with heq | hm
    · obtain ⟨rfl, rfl⟩ := Prod.mk.inj heq.symm
      rw [assocGet, if_pos rfl]
    · have hne : k' ≠ t := by
        intro hh
        subst hh
        exact hk' (List.mem_map_of_mem Prod.fst hm)
      rw [assocGet, if_neg hne]
      exact assocGet_of_mem_nodup rest t v hrest hm

theorem locsByMsgid_keys (ms : List ExtractedMessage) (t : String) :
    t ∈ (locsByMsgid ms).map Prod.fst ↔ ∃ m ∈ ms, m.msgid = t ∧ t ≠ "" := by
  rw [locsByMsgid, locsByMsgidAux_keys]
  simp

theorem locsByMsgid_keys_nodup (ms : List ExtractedMessage) :
    ((locsByMsgid ms).map Prod.fst).Nodup :=
  locsByMsgidAux_keys_nodup ms [] (by simp)

theorem locsByMsgid_get (ms : List ExtractedMessage) (t : String) (loc : String × Nat) :
    loc ∈ dictGet (locsByMsgid ms) t ↔
      ∃ m ∈ ms, m.msgid = t ∧ t ≠ "" ∧ loc = (m.path, m.line) := by
  rw [locsByMsgid, locsByMsgidAux_get]
  simp [dictGet, assocGet]

theorem locsByMsgid_val_nodup (ms : List ExtractedMessage) (t : String) :
    (dictGet (locsByMsgid ms) t).Nodup :=
  locsByMsgidAux_val_nodup ms [] (fun k => by simp [dictGet, assocGet]) t

theorem locsByMsgid_val_zero (ms : List ExtractedMessage) (t : String)
    (x : String × Nat) : x ∈ dictGet (locsByMsgid ms) t → x.2 = 0 :=
  locsByMsgidAux_val_zero ms [] (fun k x h => by simp [dictGet, assocGet] at h) t x

theorem build_pot_fst (ms : List ExtractedMessage) :
    (build_pot ms).map Prod.fst
      = (List.insertionSort keyLe (locsByMsgid ms)).map Prod.fst := by
  rw [build_pot, List.map_map]
  rfl

theorem build_pot_key_mem (ms : List ExtractedMessage) (t : String) :
    t ∈ (build_pot ms).map Prod.fst ↔ ∃ m ∈ ms, m.msgid = t ∧ t ≠ "" := by
  rw [build_pot_fst,
    ((List.perm_insertionSort keyLe (locsByMsgid ms)).map Prod.fst).mem_iff]
  exact locsByMsgid_keys ms t

theorem build_pot_key_nodup (ms : List ExtractedMessage) :
    ((build_pot ms).map Prod.fst).Nodup := by
  rw [build_pot_fst]
  exact ((List.perm_insertionSort keyLe (locsByMsgid ms)).map Prod.fst).nodup_iff.mpr
    (locsByMsgid_keys_nodup ms)

theorem build_pot_key_sorted (ms : List ExtractedMessage) :
    ((build_pot ms).map Prod.fst).Sorted (· ≤ ·) := by
  rw [build_pot_fst, List.Sorted, List.pairwise_map]
  exact List.sorted_insertionSort keyLe (locsByMsgid ms)

theorem build_pot_entry (ms : List ExtractedMessage) (t : String)
    (h : t ∈ (locsByMsgid ms).map Prod.fst) :
    ∃ w, assocGet (locsByMsgid ms) t = some w ∧
      (build_pot ms).filter (fun e => e.1 = t) = [(t, List.insertionSort locLe w)] := by
  obtain ⟨w, hw⟩ := assocGet_of_mem_keys _ t h
  refine ⟨w, hw, ?_⟩
  have hmemD : (t, w) ∈ locsByMsgid ms := assocGet_mem _ _ _ hw
  have hmemS : (t, w) ∈ List.insertionSort keyLe (locsByMsgid ms) := by
    rw [List.mem_insertionSort]
    exact hmemD
  have hmemB : (t, List.insertionSort locLe w) ∈ build_pot ms :=
    List.mem_map.mpr ⟨(t, w), hmemS, rfl⟩
  exact filter_keyEq_singleton t _ _ (build_pot_key_nodup ms) hmemB

theorem orderedInsert_loc_path (a : String × Nat) :
    ∀ l : List (String × Nat), a.2 = 0 → (∀ x ∈ l, x.2 = 0) →
    List.orderedInsert locLe a l = List.orderedInsert pathLe a l
  | [], _, _ => rfl
  | b :: l, ha, hl => by
    have hb : b.2 = 0 := hl b (List.mem_cons_self b l)
    have hcond : locLe a b ↔ pathLe a b := by
      unfold locLe pathLe
      constructor
      · rintro (h | ⟨h, _⟩)
        · exact le_of_lt h
        · exact le_of_eq h
      · intro h
        rcases lt_or_eq_of_le h with h | h
        · exact Or.inl h
        · exact Or.inr ⟨h, by rw [ha, hb]⟩
    simp only [List.orderedInsert]
    by_cases hp : pathLe a b
    · rw [if_pos hp, if_pos (hcond.mpr hp)]
    · rw [if_neg hp, if_neg (fun hh => hp (hcond.mp hh)),
        orderedInsert_loc_path a l ha (fun x hx => hl x (List.mem_cons_of_mem b hx))]

theorem insertionSort_loc_path : ∀ l : List (String × Nat), (∀ x ∈ l, x.2 = 0) →
    List.insertionSort locLe l = List.insertionSort pathLe l
  | [], _ => rfl
  | a :: l, h => by
    simp only [List.insertionSort]
    rw [insertionSort_loc_path l (fun x hx => h x (List.mem_cons_of_mem a hx))]
    exact orderedInsert_loc_path a _ (h a (List.mem_cons_self a l))
      (fun x hx => h x (List.mem_cons_of_mem a ((List.mem_insertionSort _).mp hx)))

theorem build_pot_eq_byPath (ms : List ExtractedMessage) :
    build_pot ms = build_potByPath ms := by
  rw [build_pot, build_potByPath]
  apply List.map_congr_left
  intro kv hkv
  obtain ⟨t, w⟩ := kv
  have hmemD : (t, w) ∈ locsByMsgid ms := (List.mem_insertionSort _).mp hkv
  have hget : assocGet (locsByMsgid ms) t = some w :=
    assocGet_of_mem_nodup _ t w (locsByMsgid_keys_nodup ms) hmemD
  have hzero : ∀ x ∈ w, x.2 = 0 := by
    intro x hx
    apply locsByMsgid_val_zero ms t x
    rw [dictGet, hget]
    exact hx
  rw [insertionSort_loc_path w hzero]

theorem build_pot_filter_empty (ms : List ExtractedMessage) :
    build_pot (ms.filter fun m => m.msgid ≠ "") = build_pot ms := by
  rw [build_pot, build_pot, locsByMsgid, locsByMsgid, locsByMsgidAux_filter]

theorem extractQuestion_decomp (km : KnowledgeModel) (fuel : Nat) (q : Question)
    (msgs out : List ExtractedMessage)
    (h : extractQuestion km (fuel + 1) q msgs = .ok out) :
    ∃ a b c d,
      extractItemTemplates km fuel q.item_template_question_uuids [] = .ok a ∧
      extractChoicesOpt km q.choice_uuids [] = .ok b ∧
      extractAnswersOpt km fuel q.answer_uuids [] = .ok c ∧
      extractReferences km q.reference_uuids [] = .ok d ∧
      out = msgs ++ [⟨q.title, "question", q.uuid, "title"⟩]
        ++ (if q.text = "" then [] else [⟨q.text, "question", q.uuid, "text"⟩])
        ++ a ++ b ++ c ++ d := by
  simp only [extractQuestion] at h
  rw [(extract_frame fuel).2.1 km q.item_template_question_uuids] at h
  rcases hITe : extractItemTemplates km fuel q.item_template_question_uuids []
    with e | a <;> rw [hITe] at h
  · simp [Except.map] at h
  simp only [Except.map] at h
  rw [extractChoicesOpt_frame km q.choice_uuids] at h
  rcases hCOe : extractChoicesOpt km q.choice_uuids [] with e | b <;> rw [hCOe] at h
  · simp [Except.map] at h
  simp only [Except.map] at h
  rw [(extract_frame fuel).2.2.2.1 km q.answer_uuids] at h
  rcases hAOe : extractAnswersOpt km fuel q.answer_uuids [] with e | c <;> rw [hAOe] at h
  · simp [Except.map] at h
  simp only [Except.map] at h
  rw [extractReferences_frame km q.reference_uuids] at h
  rcases hRe : extractReferences km q.reference_uuids [] with e | d <;> rw [hRe] at h
  · simp [Except.map] at h
  simp only [Except.map, Except.ok.injEq] at h
  refine ⟨a, b, c, d, rfl, rfl, rfl, rfl, ?_⟩
  rw [← h]
  by_cases htext : q.text = "" <;> simp [htext, List.append_assoc]

theorem extractChoices_types (km : KnowledgeModel) : ∀ (us : List String)
    (msgs out : List ExtractedMessage),
    extractChoices km us msgs = .ok out → (∀ m ∈ msgs, TypeOk m) → ∀ m ∈ out, TypeOk m
  | [], msgs, out, h, hP => by
    simp only [extractChoices, Except.ok.injEq] at h
    exact h ▸ hP
  | u :: us, msgs, out, h, hP => by
    simp only [extractChoices] at h
    cases hr : registryGet "choice" km.entities.choices u with
    | error e => rw [hr] at h; simp at h
    | ok choice =>
      rw [hr] at h
      refine extractChoices_types km us _ out h ?_
      intro m hm
      simp only [extractChoice, List.mem_append, List.mem_singleton] at hm
      rcases hm with hm | rfl
      · exact hP m hm
      · simp [TypeOk, rootEntityTypes]

theorem extractReferences_types (km : KnowledgeModel) : ∀ (us : List String)
    (msgs out : List ExtractedMessage),
    extractReferences km us msgs = .ok out → (∀ m ∈ msgs, TypeOk m) → ∀ m ∈ out, TypeOk m
  | [], msgs, out, h, hP => by
    simp only [extractReferences, Except.ok.injEq] at h
    exact h ▸ hP
  | u :: us, msgs, out, h, hP => by
    simp only [extractReferences] at h
    cases hr : registryGet "reference" km.entities.references u with
    | error e => rw [hr] at h; simp at h
    | ok reference =>
      rw [hr] at h
      refine extractReferences_types km us _ out h ?_
      intro m hm
      cases reference with
      | url u2 label =>
        simp only [extractReference, List.mem_append, List.mem_singleton] at hm
        rcases hm with hm | rfl
        · exact hP m hm
        · simp [TypeOk, rootEntityTypes]
      | cross u2 descr =>
        simp only [extractReference, List.mem_append, List.mem_singleton] at hm
        rcases hm with hm | rfl
        · exact hP m hm
        · simp [TypeOk, rootEntityTypes]
      | other u2 =>
        simp only [extractReference] at hm
        exact hP m hm

theorem extract_types : ∀ fuel : Nat,
    (∀ km q msgs out, extractQuestion km fuel q msgs = .ok out →
      (∀ m ∈ msgs, TypeOk m) → ∀ m ∈ out, TypeOk m) ∧
    (∀ km o msgs out, extractItemTemplates km fuel o msgs = .ok out →
      (∀ m ∈ msgs, TypeOk m) → ∀ m ∈ out, TypeOk m) ∧
    (∀ km us msgs out, extractQuestions km fuel us msgs = .ok out →
      (∀ m ∈ msgs, TypeOk m) → ∀ m ∈ out, TypeOk m) ∧
    (∀ km o msgs out, extractAnswersOpt km fuel o msgs = .ok out →
      (∀ m ∈ msgs, TypeOk m) → ∀ m ∈ out, TypeOk m) ∧
    (∀ km a msgs out, extractAnswer km fuel a msgs = .ok out →
      (∀ m ∈ msgs, TypeOk m) → ∀ m ∈ out, TypeOk m) ∧
    (∀ km us msgs out, extractAnswers km fuel us msgs = .ok out →
      (∀ m ∈ msgs, TypeOk m) → ∀ m ∈ out, TypeOk m) := by
  intro fuel
  induction fuel with
  | zero =>
    refine ⟨?_, ?_, ?_, ?_, ?_, ?_⟩
    · intro km q msgs out h
      simp [extractQuestion] at h
    · intro km o msgs out h hP
      cases o with
      | some us => simp [extractItemTemplates] at h
      | none =>
        simp only [extractItemTemplates, Except.ok.injEq] at h
        exact h ▸ hP
    · intro km us msgs out h hP
      cases us with
      | nil =>
        simp only [extractQuestions, Except.ok.injEq] at h
        exact h ▸ hP
      | cons u us => simp [extractQuestions] at h
    · intro km o msgs out h hP
      cases o with
      | some us => simp [extractAnswersOpt] at h
      | none =>
        simp only [extractAnswersOpt, Except.ok.injEq] at h
        exact h ▸ hP
    · intro km a msgs out h
      simp [extractAnswer] at h
    · intro km us msgs out h hP
      cases us with
      | nil =>
        simp only [extractAnswers, Except.ok.injEq] at h
        exact h ▸ hP
      | cons u us => simp [extractAnswers] at h
  | succ fuel ih =>
    obtain ⟨ihQ, ihIT, ihQs, ihAO, ihA, ihAs⟩ := ih
    have hIT : ∀ km o msgs out, extractItemTemplates km (fuel + 1) o msgs = .ok out →
        (∀ m ∈ msgs, TypeOk m) → ∀ m ∈ out, TypeOk m := by
      intro km o msgs out h hP
      cases o with
      | some us =>
        simp only [extractItemTemplates] at h
        exact ihQs km us msgs out h hP
      | none =>
        simp only [extractItemTemplates, Except.ok.injEq] at h
        exact h ▸ hP
    have hAO : ∀ km o msgs out, extractAnswersOpt km (fuel + 1) o msgs = .ok out →
        (∀ m ∈ msgs, TypeOk m) → ∀ m ∈ out, TypeOk m := by
      intro km o msgs out h hP
      cases o with
      | some us =>
        simp only [extractAnswersOpt] at h
        exact ihAs km us msgs out h hP
      | none =>
        simp only [extractAnswersOpt, Except.ok.injEq] at h
        exact h ▸ hP
    have hQ : ∀ km q msgs out, extractQuestion km (fuel + 1) q msgs = .ok out →
        (∀ m ∈ msgs, TypeOk m) → ∀ m ∈ out, TypeOk m := by
      intro km q msgs out h hP
      obtain ⟨a, b, c, d, ha, hb, hc, hd, hout⟩ :=
        extractQuestion_decomp km fuel q msgs out h
      have hPa : ∀ m ∈ a, TypeOk m := ihIT km _ [] a ha (by simp)
      have hPb : ∀ m ∈ b, TypeOk m :=
        (by
          cases hq : q.choice_uuids with
          | some us =>
            rw [hq] at hb
            simp only [extractChoicesOpt] at hb
            exact extractChoices_types km us [] b hb (by simp)
          | none =>
            rw [hq] at hb
            simp only [extractChoicesOpt, Except.ok.injEq] at hb
            simp [← hb])
      have hPc : ∀ m ∈ c, TypeOk m := ihAO km _ [] c hc (by simp)
      have hPd : ∀ m ∈ d, TypeOk m := extractReferences_types km _ [] d hd (by simp)
      subst hout
      intro m hm
      simp only [List.append_assoc, List.mem_append, List.mem_singleton] at hm
      rcases hm with hm | rfl | hm | hm | hm | hm | hm
      · exact hP m hm
      · simp [TypeOk, rootEntityTypes]
      · by_cases hmt : q.text = ""
        · rw [if_pos hmt] at hm
          simp at hm
        · rw [if_neg hmt] at hm
          simp only [List.mem_singleton] at hm
          subst hm
          simp [TypeOk, rootEntityTypes]
      · exact hPa m hm
      · exact hPb m hm
      · exact hPc m hm
      · exact hPd m hm
    have hA : ∀ km a msgs out, extractAnswer km (fuel + 1) a msgs = .ok out →
        (∀ m ∈ msgs, TypeOk m) → ∀ m ∈ out, TypeOk m := by
      intro km a msgs out h hP
      simp only [extractAnswer] at h
      refine ihQs km a.follow_up_uuids _ out h ?_
      intro m hm
      by_cases hadv : a.advice = "" <;>
        simp only [hadv, if_true, if_false, ite_true, ite_false,
          List.mem_append, List.mem_singleton] at hm
      · rcases hm with hm | rfl
        · exact hP m hm
        · simp [TypeOk, rootEntityTypes]
      · rcases hm with (hm | rfl) | rfl
        · exact hP m hm
        · simp [TypeOk, rootEntityTypes]
        · simp [TypeOk, rootEntityTypes]
    have hQs : ∀ km us msgs out, extractQuestions km (fuel + 1) us msgs = .ok out →
        (∀ m ∈ msgs, TypeOk m) → ∀ m ∈ out, TypeOk m := by
      intro km us msgs out h hP
      cases us with
      | nil =>
        simp only [extractQuestions, Except.ok.injEq] at h
        exact h ▸ hP
      | cons u us =>
        simp only [extractQuestions] at h
        cases hr : registryGet "question" km.entities.questions u with
        | error e => rw [hr] at h; simp at h
        | ok question =>
          rw [hr] at h
          dsimp only at h
          cases hq : extractQuestion km fuel question msgs with
          | error e => rw [hq] at h; simp at h
          | ok mid =>
            rw [hq] at h
            exact ihQs km us mid out h (ihQ km question msgs mid hq hP)
    have hAs : ∀ km us msgs out, extractAnswers km (fuel + 1) us msgs = .ok out →
        (∀ m ∈ msgs, TypeOk m) → ∀ m ∈ out, TypeOk m := by
      intro km us msgs out h hP
      cases us with
      | nil =>
        simp only [extractAnswers, Except.ok.injEq] at h
        exact h ▸ hP
      | cons u us =>
        simp only [extractAnswers] at h
        cases hr : registryGet "answer" km.entities.answers u with
        | error e => rw [hr] at h; simp at h
        | ok answer =>
          rw [hr] at h
          dsimp only at h
          cases hq : extractAnswer km fuel answer msgs with
          | error e => rw [hq] at h; simp at h
          | ok mid =>
            rw [hq] at h
            exact ihAs km us mid out h (ihA km answer msgs mid hq hP)
    exact ⟨hQ, hIT, hQs, hAO, hA, hAs⟩

theorem extractChapter_types (km : KnowledgeModel) (fuel : Nat) (chapter : Chapter)
    (msgs out : List ExtractedMessage)
    (h : extractChapter km fuel chapter msgs = .ok out)
    (hP : ∀ m ∈ msgs, TypeOk m) : ∀ m ∈ out, TypeOk m := by
  simp only [extractChapter] at h
  refine (extract_types fuel).2.2.1 km chapter.question_uuids _ out h ?_
  intro m hm
  by_cases htext : chapter.text = "" <;>
    simp only [htext, if_true, if_false, ite_true, ite_false,
      List.mem_append, List.mem_singleton] at hm
  · rcases hm with hm | rfl
    · exact hP m hm
    · simp [TypeOk, rootEntityTypes]
  · rcases hm with (hm | rfl) | rfl
    · exact hP m hm
    · simp [TypeOk, rootEntityTypes]
    · simp [TypeOk, rootEntityTypes]

theorem extractChapters_types (km : KnowledgeModel) (fuel : Nat) :
    ∀ (us : List String) (msgs out : List ExtractedMessage),
    extractChapters km fuel us msgs = .ok out →
    (∀ m ∈ msgs, TypeOk m) → ∀ m ∈ out, TypeOk m
  | [], msgs, out, h, hP => by
    simp only [extractChapters, Except.ok.injEq] at h
    exact h ▸ hP
  | u :: us, msgs, out, h, hP => by
    simp only [extractChapters] at h
    cases hr : registryGet "chapter" km.entities.chapters u with
    | error e => rw [hr] at h; simp at h
    | ok chapter =>
      rw [hr] at h
      dsimp only at h
      cases hc : extractChapter km fuel chapter msgs with
      | error e => rw [hc] at h; simp at h
      | ok mid =>
        rw [hc] at h
        exact extractChapters_types km fuel us mid out h
          (extractChapter_types km fuel chapter msgs mid hc hP)

theorem extract_messages_types (fuel : Nat) (e e' : MessageExtractor)
    (out : List ExtractedMessage)
    (h : e.extract_messages fuel = .ok (e', out)) : ∀ m ∈ out, TypeOk m := by
  simp only [MessageExtractor.extract_messages, MessageExtractor.reset] at h
  cases hc : extractChapters e.km fuel e.km.chapter_uuids [] with
  | error er => rw [hc] at h; simp at h
  | ok msgs =>
    rw [hc] at h
    simp only [Except.ok.injEq, Prod.mk.injEq] at h
    obtain ⟨he', hout⟩ := h
    subst hout
    exact extractChapters_types e.km fuel e.km.chapter_uuids [] _ hc (by simp)

theorem pairwise_conj {α : Type} {l : List α} {R S : α → α → Prop}
    (hR : l.Pairwise R) (hS : l.Pairwise S) :
    l.Pairwise (fun a b => R a b ∧ S a b) := by
  induction l with
  | nil => exact List.Pairwise.nil
  | cons a l ih =>
    rcases List.pairwise_cons.mp hR with ⟨hra, hrl⟩
    rcases List.pairwise_cons.mp hS with ⟨hsa, hsl⟩
    exact List.pairwise_cons.mpr ⟨fun b hb => ⟨hra b hb, hsa b hb⟩, ih hrl hsl⟩

theorem extract_messages_km_only (fuel : Nat) (e1 e2 : MessageExtractor)
    (h : e1.km = e2.km) : e1.extract_messages fuel = e2.extract_messages fuel := by
  obtain ⟨km1, m1⟩ := e1
  obtain ⟨km2, m2⟩ := e2
  dsimp only at h
  subst h
  rfl

theorem extract_messages_result (fuel : Nat) (e e' : MessageExtractor)
    (out : List ExtractedMessage) (h : e.extract_messages fuel = .ok (e', out)) :
    e' = ⟨e.km, out⟩ := by
  simp only [MessageExtractor.extract_messages, MessageExtractor.reset] at h
  cases hc : extractChapters e.km fuel e.km.chapter_uuids [] with
  | error er => rw [hc] at h; simp at h
  | ok msgs =>
    rw [hc] at h
    simp only [Except.ok.injEq, Prod.mk.injEq] at h
    obtain ⟨he', hout⟩ := h
    subst hout
    exact he'.symm

theorem extract_messages_fix (fuel : Nat) (e e' : MessageExtractor)
    (out : List ExtractedMessage) (h : e.extract_messages fuel = .ok (e', out)) :
    e'.extract_messages fuel = .ok (e', out) := by
  have hr := extract_messages_result fuel e e' out h
  have hkm : e'.km = e.km := by rw [hr]
  rw [extract_messages_km_only fuel e' e hkm]
  exact h

/-- C1: in the catalog built from any message sequence, a non-empty text
carried by two distinct records yields exactly one entry; the entry's
location list is the union of the locations of all records with that text,
identical (text, location) pairs collapsed (`Nodup`), sorted in the code's
(path, line) order, which is strictly increasing in the full location
string. -/
theorem claim1_dedup_entry (ms : List ExtractedMessage) (t : String) (ht : t ≠ "")
    (m1 m2 : ExtractedMessage) (hm1 : m1 ∈ ms) (hm2 : m2 ∈ ms) (hne : m1 ≠ m2)
    (ht1 : m1.msgid = t) (ht2 : m2.msgid = t) :
    ∃ locs, (build_pot ms).filter (fun e => e.1 = t) = [(t, locs)] ∧
      (∀ loc, loc ∈ locs ↔ ∃ m ∈ ms, m.msgid = t ∧ loc = (m.path, m.line)) ∧
      locs.Nodup ∧ locs.Sorted locLe ∧
      locs.Pairwise (fun a b => a.1 < b.1) := by
  have hkey : t ∈ (locsByMsgid ms).map Prod.fst :=
    (locsByMsgid_keys ms t).mpr ⟨m1, hm1, ht1, ht⟩
  obtain ⟨w, hw, hfilter⟩ := build_pot_entry ms t hkey
  have hwget : dictGet (locsByMsgid ms) t = w := by
    rw [dictGet, hw]
    rfl
  have hmem : ∀ loc, loc ∈ List.insertionSort locLe w ↔
      ∃ m ∈ ms, m.msgid = t ∧ loc = (m.path, m.line) := by
    intro loc
    rw [List.mem_insertionSort, ← hwget, locsByMsgid_get]
    constructor
    · rintro ⟨m, hm, hmt, _, hl⟩
      exact ⟨m, hm, hmt, hl⟩
    · rintro ⟨m, hm, hmt, hl⟩
      exact ⟨m, hm, hmt, ht, hl⟩
  have hnodup : (List.insertionSort locLe w).Nodup :=
    ((List.perm_insertionSort locLe w).nodup_iff).mpr
      (hwget ▸ locsByMsgid_val_nodup ms t)
  have hsorted : (List.insertionSort locLe w).Sorted locLe :=
    List.sorted_insertionSort locLe w
  have hzero : ∀ x ∈ List.insertionSort locLe w, x.2 = 0 := by
    intro x hx
    exact locsByMsgid_val_zero ms t x
      (hwget ▸ (List.mem_insertionSort _).mp hx)
  refine ⟨List.insertionSort locLe w, hfilter, hmem, hnodup, hsorted, ?_⟩
  refine (pairwise_conj hsorted hnodup).imp_of_mem ?_
  intro a b ha hb hab
  obtain ⟨hle, hneq⟩ := hab
  rcases hle with hlt | ⟨heq, _⟩
  · exact hlt
  · exact absurd (Prod.ext_iff.mpr ⟨heq, by rw [hzero a ha, hzero b hb]⟩) hneq

/-- C2: records with empty text are invisible to `build_pot` (filtering them
out first changes nothing, and no catalog entry has empty text), while a
question's title record is emitted even when the title is empty — it is only
dropped at catalog-build time. -/
theorem claim2_empty_filtering (ms : List ExtractedMessage) :
    build_pot (ms.filter fun m => m.msgid ≠ "") = build_pot ms ∧
    (∀ e ∈ build_pot ms, e.1 ≠ "") ∧
    (∀ (km : KnowledgeModel) (fuel : Nat) (q : Question)
      (msgs out : List ExtractedMessage),
      extractQuestion km (fuel + 1) q msgs = .ok out →
      (⟨q.title, "question", q.uuid, "title"⟩ : ExtractedMessage) ∈ out) := by
  refine ⟨build_pot_filter_empty ms, ?_, ?_⟩
  · intro e he
    have hmk : e.1 ∈ (build_pot ms).map Prod.fst := List.mem_map_of_mem Prod.fst he
    obtain ⟨m, _, _, hne⟩ := (build_pot_key_mem ms e.1).mp hmk
    exact hne
  · intro km fuel q msgs out h
    obtain ⟨a, b, c, d, _, _, _, _, hout⟩ := extractQuestion_decomp km fuel q msgs out h
    subst hout
    simp [List.mem_append]

/-- C3: the catalog has exactly one entry per unique non-empty text value
occurring in the input (its keys are duplicate-free, and a text value is a
key exactly when it is non-empty and borne by some record), and the entries
are ordered lexicographically by text. -/
theorem claim3_unique_sorted (ms : List ExtractedMessage) :
    ((build_pot ms).map Prod.fst).Nodup ∧
    (∀ t : String, t ∈ (build_pot ms).map Prod.fst ↔
      t ≠ "" ∧ ∃ m ∈ ms, m.msgid = t) ∧
    ((build_pot ms).map Prod.fst).Sorted (· ≤ ·) := by
  refine ⟨build_pot_key_nodup ms, ?_, build_pot_key_sorted ms⟩
  intro t
  rw [build_pot_key_mem]
  constructor
  · rintro ⟨m, hm, hmt, hne⟩
    exact ⟨hne, m, hm, hmt⟩
  · rintro ⟨hne, m, hm, hmt⟩
    exact ⟨m, hm, hmt, hne⟩

/-- C4 counterexample: `kmOrphan` holds a question whose `choice_uuids`
names an identifier absent from the choice registry, yet the question is
unreachable from the chapter list, so extraction succeeds — the run does not
abort even though the model contains an unresolved reference. -/
theorem claim4_counterexample :
    assocGet kmOrphan.entities.questions "Q1" = some
      { uuid := "Q1", title := "T", text := ""
        item_template_question_uuids := none
        choice_uuids := some ["missing"]
        answer_uuids := none
        reference_uuids := [] } ∧
    assocGet kmOrphan.entities.choices "missing" = none ∧
    (MessageExtractor.mk0 kmOrphan).extract_messages 5
      = .ok (MessageExtractor.mk0 kmOrphan, []) := by
  refine ⟨rfl, rfl, rfl⟩

/-- C4 (amended): whenever the traversal actually performs a registry lookup
for an identifier that is absent — at any of the six lookup sites: chapters,
questions, choices, answers, references, resource pages — the extraction
aborts with an error naming the missing identifier and the expected entity
type, rather than silently skipping the node. -/
theorem claim4_amended (km : KnowledgeModel) (u : String) (us : List String)
    (msgs : List ExtractedMessage) (fuel : Nat) :
    (assocGet km.entities.chapters u = none →
      extractChapters km fuel (u :: us) msgs = .error (.unresolved "chapter" u)) ∧
    (km.chapter_uuids = u :: us → assocGet km.entities.chapters u = none →
      ∀ e : MessageExtractor, e.km = km →
        e.extract_messages fuel = .error (.unresolved "chapter" u)) ∧
    (assocGet km.entities.questions u = none →
      extractQuestions km (fuel + 1) (u :: us) msgs = .error (.unresolved "question" u)) ∧
    (assocGet km.entities.choices u = none →
      extractChoices km (u :: us) msgs = .error (.unresolved "choice" u)) ∧
    (assocGet km.entities.answers u = none →
      extractAnswers km (fuel + 1) (u :: us) msgs = .error (.unresolved "answer" u)) ∧
    (assocGet km.entities.references u = none →
      extractReferences km (u :: us) msgs = .error (.unresolved "reference" u)) ∧
    (assocGet km.entities.resource_pages u = none →
      extractResourcePages km (u :: us) msgs = .error (.unresolved "resource_page" u)) := by
  refine ⟨?_, ?_, ?_, ?_, ?_, ?_, ?_⟩
  · intro h
    simp [extractChapters, registryGet, h]
  · intro hcu h e hkm
    simp only [MessageExtractor.extract_messages, MessageExtractor.reset]
    rw [hkm, hcu]
    simp [extractChapters, registryGet, h]
  · intro h
    simp [extractQuestions, registryGet, h]
  · intro h
    simp [extractChoices, registryGet, h]
  · intro h
    simp [extractAnswers, registryGet, h]
  · intro h
    simp [extractReferences, registryGet, h]
  · intro h
    simp [extractResourcePages, registryGet, h]

theorem claim4_witness :
    assocGet kmEmpty.entities.chapters "C0" = none ∧
    kmEmpty.chapter_uuids = "C0" :: [] ∧
    (MessageExtractor.km (MessageExtractor.mk0 kmEmpty) = kmEmpty) ∧
    (MessageExtractor.mk0 kmEmpty).extract_messages 3
      = .error (.unresolved "chapter" "C0") ∧
    assocGet kmEmpty.entities.questions "X" = none ∧
    extractQuestions kmEmpty 1 ["X"] [] = .error (.unresolved "question" "X") ∧
    extractChoices kmEmpty ["X"] [] = .error (.unresolved "choice" "X") ∧
    extractAnswers kmEmpty 1 ["X"] [] = .error (.unresolved "answer" "X") ∧
    extractReferences kmEmpty ["X"] [] = .error (.unresolved "reference" "X") ∧
    extractResourcePages kmEmpty ["X"] [] = .error (.unresolved "resource_page" "X") :=
  ⟨rfl, rfl, rfl,
    (claim4_amended kmEmpty "C0" [] [] 3).2.1 rfl rfl (MessageExtractor.mk0 kmEmpty) rfl,
    rfl,
    (claim4_amended kmEmpty "X" [] [] 0).2.2.1 rfl,
    (claim4_amended kmEmpty "X" [] [] 0).2.2.2.1 rfl,
    (claim4_amended kmEmpty "X" [] [] 0).2.2.2.2.1 rfl,
    (claim4_amended kmEmpty "X" [] [] 0).2.2.2.2.2.1 rfl,
    (claim4_amended kmEmpty "X" [] [] 0).2.2.2.2.2.2 rfl⟩

/-- C5: the spec's concrete scenario — one chapter `C1` ("Intro", blank
text) containing one plain question `Q1` ("Name?", blank text) with one URL
reference `R1` ("See docs") — yields exactly the three expected catalog
entries with their locations. -/
theorem claim5_concrete_scenario :
    runCatalog kmScenario 10 = .ok
      [("Intro", [("chapter:C1:title", 0)]),
       ("Name?", [("question:Q1:title", 0)]),
       ("See docs", [("url-reference:R1:label", 0)])] := by
  decide

/-- C6: a successful question visit emits the title record first, then the
text record exactly when the text is non-empty, then the item-template
questions (List variant), then the choices (MultiChoice variant), then the
answers (Options variant) — each variant branch contributing nothing when
the node does not carry it, and every carried branch contributing — and the
references last. -/
theorem claim6_question_order (km : KnowledgeModel) (fuel : Nat) (q : Question)
    (msgs out : List ExtractedMessage)
    (h : extractQuestion km (fuel + 1) q msgs = .ok out) :
    ∃ a b c d,
      extractItemTemplates km fuel q.item_template_question_uuids [] = .ok a ∧
      (q.item_template_question_uuids = none → a = []) ∧
      extractChoicesOpt km q.choice_uuids [] = .ok b ∧
      (q.choice_uuids = none → b = []) ∧
      extractAnswersOpt km fuel q.answer_uuids [] = .ok c ∧
      (q.answer_uuids = none → c = []) ∧
      extractReferences km q.reference_uuids [] = .ok d ∧
      out = msgs ++ [⟨q.title, "question", q.uuid, "title"⟩]
        ++ (if q.text = "" then [] else [⟨q.text, "question", q.uuid, "text"⟩])
        ++ a ++ b ++ c ++ d := by
  obtain ⟨a, b, c, d, ha, hb, hc, hd, hout⟩ := extractQuestion_decomp km fuel q msgs out h
  refine ⟨a, b, c, d, ha, ?_, hb, ?_, hc, ?_, hd, hout⟩
  · intro hnone
    rw [hnone] at ha
    simpa [extractItemTemplates, eq_comm] using ha
  · intro hnone
    rw [hnone] at hb
    simpa [extractChoicesOpt, eq_comm] using hb
  · intro hnone
    rw [hnone] at hc
    simpa [extractAnswersOpt, eq_comm] using hc

/-- C7: the extracted record sequence and the built catalog are functions of
the knowledge model alone — any extractor instance over the same model (with
any accumulator history) produces the same records as a fresh run, and its
catalog equals the pipeline's. -/
theorem claim7_determinism (km : KnowledgeModel) (fuel : Nat)
    (e : MessageExtractor) (h : e.km = km) :
    e.extract_messages fuel = (MessageExtractor.mk0 km).extract_messages fuel ∧
    Except.map (fun r => build_pot r.2) (e.extract_messages fuel)
      = runCatalog km fuel := by
  have h1 : e.extract_messages fuel
      = (MessageExtractor.mk0 km).extract_messages fuel :=
    extract_messages_km_only fuel e (MessageExtractor.mk0 km) (by rw [h]; rfl)
  refine ⟨h1, ?_⟩
  rw [h1, runCatalog]
  cases (MessageExtractor.mk0 km).extract_messages fuel with
  | error er => simp [Except.map]
  | ok r =>
    obtain ⟨e', msgs⟩ := r
    simp [Except.map]

/-- C8: every record produced by the root traversal bears one of the six
chapter-reachable entity types; tag, metric, phase, resource-collection and
resource-page visitors exist but are never reached from `extract_messages`. -/
theorem claim8_entity_types (fuel : Nat) (e e' : MessageExtractor)
    (out : List ExtractedMessage)
    (h : e.extract_messages fuel = .ok (e', out)) :
    ∀ m ∈ out, m.entity_type ∈ rootEntityTypes :=
  extract_messages_types fuel e e' out h

/-- C9: the line number of every extracted message is 0, every location pair
in the catalog has line 0, and sorting locations by the (path, line) pair is
the same as sorting them by the path (full location string) alone. -/
theorem claim9_line_zero :
    (∀ m : ExtractedMessage, m.line = 0) ∧
    (∀ ms : List ExtractedMessage, build_pot ms = build_potByPath ms) ∧
    (∀ (ms : List ExtractedMessage) (e : String × List (String × Nat)),
      e ∈ build_pot ms → ∀ l ∈ e.2, l.2 = 0) := by
  refine ⟨fun m => rfl, build_pot_eq_byPath, ?_⟩
  intro ms e he l hl
  obtain ⟨⟨t, w⟩, hkv, hfe⟩ := List.mem_map.mp he
  subst hfe
  dsimp only at hl
  have hmemD : (t, w) ∈ locsByMsgid ms := (List.mem_insertionSort _).mp hkv
  have hget := assocGet_of_mem_nodup _ t w (locsByMsgid_keys_nodup ms) hmemD
  apply locsByMsgid_val_zero ms t l
  rw [dictGet, hget]
  exact (List.mem_insertionSort _).mp hl

/-- C10: `extract_messages` resets the accumulator before traversing, so the
result does not depend on the accumulator state, and re-running on the
object returned by a successful call returns the very same result. -/
theorem claim10_reset_idempotent (fuel : Nat) (km : KnowledgeModel)
    (m1 m2 : List ExtractedMessage) :
    MessageExtractor.extract_messages fuel ⟨km, m1⟩
      = MessageExtractor.extract_messages fuel ⟨km, m2⟩ ∧
    (∀ (e e' : MessageExtractor) (out : List ExtractedMessage),
      e.extract_messages fuel = .ok (e', out) →
      e'.extract_messages fuel = .ok (e', out)) :=
  ⟨extract_messages_km_only fuel ⟨km, m1⟩ ⟨km, m2⟩ rfl,
    fun e e' out h => extract_messages_fix fuel e e' out h⟩

theorem claim1_witness :
    ("Yes" : String) ≠ "" ∧
    (⟨"Yes", "choice", "A", "label"⟩ : ExtractedMessage) ∈ msPair ∧
    (⟨"Yes", "choice", "B", "label"⟩ : ExtractedMessage) ∈ msPair ∧
    (∃ locs, (build_pot msPair).filter (fun e => e.1 = "Yes") = [("Yes", locs)] ∧
      (∀ loc, loc ∈ locs ↔ ∃ m ∈ msPair, m.msgid = "Yes" ∧ loc = (m.path, m.line)) ∧
      locs.Nodup ∧ locs.Sorted locLe ∧
      locs.Pairwise (fun a b => a.1 < b.1)) :=
  ⟨by decide, by decide, by decide,
    claim1_dedup_entry msPair "Yes" (by decide)
      ⟨"Yes", "choice", "A", "label"⟩ ⟨"Yes", "choice", "B", "label"⟩
      (by decide) (by decide) (by decide) (by decide) (by decide)⟩

theorem claim2_witness :
    extractQuestion kmEmpty 1 qBlank []
      = .ok [⟨"", "question", "QB", "title"⟩] ∧
    (⟨"", "question", "QB", "title"⟩ : ExtractedMessage)
      ∈ [(⟨"", "question", "QB", "title"⟩ : ExtractedMessage)] :=
  ⟨by decide, (claim2_empty_filtering []).2.2 kmEmpty 0 qBlank []
    [⟨"", "question", "QB", "title"⟩] (by decide)⟩

theorem claim6_witness :
    extractQuestion kmScenario 2 qScenario [] = .ok
      [⟨"Name?", "question", "Q1", "title"⟩,
       ⟨"See docs", "url-reference", "R1", "label"⟩] ∧
    (∃ a b c d,
      extractItemTemplates kmScenario 1 qScenario.item_template_question_uuids []
        = .ok a ∧
      (qScenario.item_template_question_uuids = none → a = []) ∧
      extractChoicesOpt kmScenario qScenario.choice_uuids [] = .ok b ∧
      (qScenario.choice_uuids = none → b = []) ∧
      extractAnswersOpt kmScenario 1 qScenario.answer_uuids [] = .ok c ∧
      (qScenario.answer_uuids = none → c = []) ∧
      extractReferences kmScenario qScenario.reference_uuids [] = .ok d ∧
      [(⟨"Name?", "question", "Q1", "title"⟩ : ExtractedMessage),
       ⟨"See docs", "url-reference", "R1", "label"⟩]
        = [] ++ [⟨qScenario.title, "question", qScenario.uuid, "title"⟩]
          ++ (if qScenario.text = "" then []
              else [⟨qScenario.text, "question", qScenario.uuid, "text"⟩])
          ++ a ++ b ++ c ++ d) :=
  ⟨by decide, claim6_question_order kmScenario 1 qScenario []
    [⟨"Name?", "question", "Q1", "title"⟩,
     ⟨"See docs", "url-reference", "R1", "label"⟩] (by decide)⟩

theorem claim7_witness :
    (MessageExtractor.km ⟨kmScenario, outScenario⟩ = kmScenario) ∧
    (MessageExtractor.extract_messages 10 ⟨kmScenario, outScenario⟩
        = (MessageExtractor.mk0 kmScenario).extract_messages 10 ∧
      Except.map (fun r => build_pot r.2)
          (MessageExtractor.extract_messages 10 ⟨kmScenario, outScenario⟩)
        = runCatalog kmScenario 10) :=
  ⟨rfl, claim7_determinism kmScenario 10 ⟨kmScenario, outScenario⟩ rfl⟩

theorem claim8_witness :
    (MessageExtractor.mk0 kmTagged).extract_messages 10
      = .ok (⟨kmTagged, outScenario⟩, outScenario) ∧
    (∀ m ∈ outScenario, m.entity_type ∈ rootEntityTypes) :=
  ⟨by decide, claim8_entity_types 10 (MessageExtractor.mk0 kmTagged)
    ⟨kmTagged, outScenario⟩ outScenario (by decide)⟩

theorem claim9_witness :
    (("a", [("q:u:t", 0)]) ∈ build_pot [⟨"a", "q", "u", "t"⟩]) ∧
    (("q:u:t", 0) ∈ [(("q:u:t" : String), (0 : Nat))]) ∧
    (∀ l ∈ (("a", [("q:u:t", 0)]) : String × List (String × Nat)).2, l.2 = 0) :=
  ⟨by decide, by decide,
    claim9_line_zero.2.2 [⟨"a", "q", "u", "t"⟩] ("a", [("q:u:t", 0)]) (by decide)⟩

theorem claim10_witness :
    (MessageExtractor.mk0 kmScenario).extract_messages 10
      = .ok (⟨kmScenario, outScenario⟩, outScenario) ∧
    MessageExtractor.extract_messages 10 ⟨kmScenario, outScenario⟩
      = .ok (⟨kmScenario, outScenario⟩, outScenario) :=
  ⟨by decide, (claim10_reset_idempotent 10 kmScenario [] []).2
    (MessageExtractor.mk0 kmScenario) ⟨kmScenario, outScenario⟩ outScenario
    (by decide)⟩

end ExtractMessages
